import Mathlib

/-!
Shallow embedding of the `cm-bump` repository (sources: `src/updater.rs`,
`src/bumper.rs`, `src/operator.rs`, `src/main.rs`) together with theorems
settling the specification claims about it.

Modelling conventions:

* The on-disk base directory is a map from logical file name to file
  content (`FS := String → Option String`); `updater.rs` keys every file
  directly under one base directory by its logical name, so the directory
  path itself is irrelevant to the claims.
* The SHA-1 checksum used by `updater.rs` is an external library; it is
  modelled as an explicit parameter `h : String → String` shared between
  `prepare` and `reconcile`, exactly as the code uses the same `sha1::Sha1`
  computation in both places.
* Filesystem reads and writes are modelled as always succeeding; the Rust
  code logs and tolerates individual I/O failures, which are external
  nondeterminism outside the deterministic model.
* The `reconcile` of `updater.rs` is instrumented with a chronological
  event trace (`deleted`/`written`/`bumped`) so that "the dispatcher is
  invoked exactly once, after all writes and deletes" and "this file was
  not written" are expressible as trace properties.  Each event is emitted
  exactly where the corresponding Rust statement executes.
-/

namespace CmBump

/-- One prepared config file: raw content plus its checksum, mirroring
`struct ConfigFile { content, digest }` of `updater.rs`. -/
structure ConfigFile where
  content : String
  digest : String
deriving DecidableEq, Repr

/-- `type ConfigFiles = BTreeMap<String, ConfigFile>` of `updater.rs`,
modelled as an association list; `BTreeMap`'s key uniqueness is carried as a
`Nodup` hypothesis where a theorem needs it. -/
abbrev ConfigFiles := List (String × ConfigFile)

/-- The on-disk state of the base directory: logical file name to content. -/
abbrev FS := String → Option String

/-- `std::fs::write` of one file under the base directory. -/
def writeFile (fs : FS) (name content : String) : FS :=
  fun n => if n = name then some content else fs n

/-- `std::fs::remove_file` of one file under the base directory. -/
def removeFile (fs : FS) (name : String) : FS :=
  fun n => if n = name then none else fs n

/-- `BTreeMap::contains_key` on the association-list model. -/
def containsKey (files : ConfigFiles) (k : String) : Bool :=
  files.any (fun p => p.1 == k)

/-- Chronological filesystem/dispatcher events of one `reconcile` pass. -/
inductive Event where
  /-- `std::fs::remove_file` was attempted on this file name. -/
  | deleted (name : String)
  /-- `std::fs::write` wrote this file name. -/
  | written (name : String)
  /-- the configured `Bumper` was invoked. -/
  | bumped
deriving DecidableEq, Repr

/-- The deletion loop of `ConfigUpdater::reconcile` (updater.rs:97-115):
for every key of `old` that is not a key of `new`, remove the on-disk file
(failures are logged and ignored, so removal of an absent file is a no-op on
the state). -/
def deletePass (newFiles : ConfigFiles) : List String → FS → FS × List Event
  | [], fs => (fs, [])
  | f :: rest, fs =>
    if containsKey newFiles f then
      deletePass newFiles rest fs
    else
      let r := deletePass newFiles rest (removeFile fs f)
      (r.1, Event.deleted f :: r.2)

/-- The create-or-update loop of `ConfigUpdater::reconcile`
(updater.rs:117-152): for each entry of `new`, if the file exists on disk
and its freshly recomputed checksum equals the expected digest, skip it;
otherwise write the new content and mark the pass as updated.  Returns the
final filesystem, the `updated` flag and the chronological events. -/
def writePass (h : String → String) : ConfigFiles → FS → Bool → FS × Bool × List Event
  | [], fs, updated => (fs, updated, [])
  | (name, cfg) :: rest, fs, updated =>
    match fs name with
    | some data =>
      if h data = cfg.digest then
        writePass h rest fs updated
      else
        let r := writePass h rest (writeFile fs name cfg.content) true
        (r.1, r.2.1, Event.written name :: r.2.2)
    | none =>
      let r := writePass h rest (writeFile fs name cfg.content) true
      (r.1, r.2.1, Event.written name :: r.2.2)

/-- Result of one `ConfigUpdater::reconcile` call: final filesystem, the
`updated` flag, the chronological event trace, and whether the call returned
`Ok` (`ok = false` models returning the bump failure as
`Err(OperatorError)`). -/
structure ReconcileResult where
  fs : FS
  updated : Bool
  events : List Event
  ok : Bool

/-- `ConfigUpdater::reconcile` (updater.rs:91-162).  `bumper` models the
optional configured `Bumper` as a black box: `none` = no bumper configured,
`some true` = a bumper whose `bump()` succeeds, `some false` = a bumper
whose `bump()` fails with a signal error. -/
def reconcile (h : String → String) (bumper : Option Bool)
    (old new : Option ConfigFiles) (fs : FS) : ReconcileResult :=
  match new with
  | none => ⟨fs, false, [], true⟩
  | some newFiles =>
    let d : FS × List Event :=
      match old with
      | some oldFiles => deletePass newFiles (oldFiles.map Prod.fst) fs
      | none => (fs, [])
    let w := writePass h newFiles d.1 false
    if w.2.1 then
      match bumper with
      | some bumpOk => ⟨w.1, w.2.1, d.2 ++ w.2.2 ++ [Event.bumped], bumpOk⟩
      | none => ⟨w.1, w.2.1, d.2 ++ w.2.2, true⟩
    else
      ⟨w.1, w.2.1, d.2 ++ w.2.2, true⟩

/-- `ConfigUpdater::prepare` (updater.rs:58-89): transform a config map's
name-to-content data into checksummed `ConfigFiles`. -/
def prepare (h : String → String) (data : List (String × String)) : ConfigFiles :=
  data.map (fun p => (p.1, ⟨p.2, h p.2⟩))

/-!
Embedding of `src/bumper.rs`: process detection, resolution and signalling.

* The live process table (`/proc`) is modelled as the ordered list of its
  directory entries (`ProcFS`); each entry carries its directory name, the
  null-byte-split argument vector of its `cmdline` file, and the parent PID
  exposed by its `stat` record.
* `regex::Regex` is an external library; a compiled regex is modelled by
  its matching function `String → Bool`.
* `nix::sys::signal::kill` is an external syscall; its outcome is modelled
  by a parameter `kill : Int → Bool` (`false` = delivery fails).
-/

/-- `enum Error` of bumper.rs. -/
inductive Error where
  | initError (msg : String)
  | procError (msg : String)
  | signalError (msg : String)
deriving DecidableEq, Repr

/-- `enum ProcessDetection` of bumper.rs: a command-line regex (modelled by
its match function) or an exact PID. -/
inductive ProcessDetection where
  | cmdline (re : String → Bool)
  | pid (p : Int)

/-- `struct ProcessDetector` of bumper.rs: a detection criterion, the
optional cached PID, and the optional boxed parent link. -/
inductive ProcessDetector where
  | mk (detection : ProcessDetection) (pid : Option Int)
      (parent : Option ProcessDetector)

/-- One directory entry of the live process listing. -/
structure ProcEntry where
  /-- the entry's file name under the process root (e.g. `"1"`, `"self"`). -/
  dirName : String
  /-- the null-byte-split argument vector read from the entry's `cmdline`. -/
  cmdline : List String
  /-- the parent PID exposed by the entry's `stat` record. -/
  ppid : Int
deriving DecidableEq, Repr

/-- The live process listing, in directory-listing order. -/
structure ProcFS where
  entries : List ProcEntry
deriving DecidableEq, Repr

/-- Digit-string parse (the core of Rust's unsigned integer `parse`):
`some` of the value when the string is nonempty and all digits. -/
def parseNatAll (s : String) : Option Nat :=
  if s.data.isEmpty ∨ ¬ s.data.all Char.isDigit then none
  else some (s.data.foldl (fun a c => a * 10 + (c.toNat - 48)) 0)

/-- Rust's `str::parse::<u16>`: optional leading `+`, digits, value at most
65535 (larger values overflow and fail the parse). -/
def parseU16 (s : String) : Option Nat :=
  let body : String := match s.data with
    | '+' :: rest => ⟨rest⟩
    | _ => s
  match parseNatAll body with
  | some n => if n ≤ 65535 then some n else none
  | none => none

/-- Whitespace trimming of both string ends (Rust's `str::trim`). -/
def trimString (s : String) : String :=
  ⟨((s.data.dropWhile Char.isWhitespace).reverse.dropWhile Char.isWhitespace).reverse⟩

/-- `parse_cmdline` (bumper.rs:286-301): join the null-byte-split argument
vector with single spaces (the fold in the source), then trim. -/
def parse_cmdline (parts : List String) : String :=
  trimString (parts.foldl (fun acc s => if acc.data.isEmpty then acc ++ s else acc ++ " " ++ s) "")

/-- Look up the process-table entry whose directory name is the decimal
rendering of `pid` (how the code addresses `/proc/{pid}/...`). -/
def findEntry (t : ProcFS) (pid : Int) : Option ProcEntry :=
  t.entries.find? (fun e => e.dirName == toString pid)

/-- `ProcessDetector::pid_exists` (bumper.rs:185-187): does the directory
`/proc/{pid}` exist. -/
def pid_exists (t : ProcFS) (pid : Int) : Bool :=
  (findEntry t pid).isSome

/-- Reading and reassembling `/proc/{pid}/cmdline`; `none` models the read
failing because no such process directory exists. -/
def readCmdline (t : ProcFS) (pid : Int) : Option String :=
  (findEntry t pid).map (fun e => parse_cmdline e.cmdline)

/-- `is_parent` (bumper.rs:303-328): read `/proc/{new_pid}/stat` and check
whether the parent-PID field equals `ppid`.  The free-text stat parsing
(fields after the last `") "`) is modelled at its boundary by the entry's
`ppid` field; a missing process directory is the read error the code maps
to `ProcError`. -/
def is_parent (t : ProcFS) (ppid newPid : Int) : Except Error Bool :=
  match findEntry t newPid with
  | none => .error (.procError "stat read failed")
  | some e => .ok (ppid = e.ppid)

/-- The entry filter and first-match search of `scan_proc`
(bumper.rs:233-280): keep entries whose name parses as a `u16`, reassemble
the entry's cmdline, and return the first entry matching the regex (its
name re-parsed as the PID; the `i32` re-parse always succeeds on a `u16`
value). -/
def scanEntries (re : String → Bool) : List ProcEntry → Option Int
  | [] => none
  | e :: rest =>
    match parseU16 e.dirName with
    | some n => if re (parse_cmdline e.cmdline) then some (Int.ofNat n) else scanEntries re rest
    | none => scanEntries re rest

/-- `scan_proc` (bumper.rs:233-280); reading the process root is modelled
as always succeeding (the table is given). -/
def scan_proc (t : ProcFS) (re : String → Bool) : Except Error (Option Int) :=
  .ok (scanEntries re t.entries)

/-- `ProcessDetector::valid` (bumper.rs:147-183): the cached PID is valid
iff, for a cmdline criterion, the process with the cached PID is alive and
its current command line matches the regex; for a PID criterion, the cached
PID equals the expected PID and is alive.  An absent cache is invalid. -/
def valid (t : ProcFS) (det : ProcessDetection) (cached : Option Int) : Bool :=
  match cached with
  | none => false
  | some pid =>
    match det with
    | .cmdline re =>
      match readCmdline t pid with
      | some c => re c
      | none => false
    | .pid expected => if pid = expected then pid_exists t pid else false

/-- `ProcessDetector::find_pid` (bumper.rs:114-145): fresh search for a PID
matching the criterion.  PID 0 is the always-matching sentinel. -/
def find_pid (t : ProcFS) (det : ProcessDetection) : Option Int :=
  match det with
  | .cmdline re =>
    match scan_proc t re with
    | .ok r => r
    | .error _ => none
  | .pid p =>
    if p = 0 then some 0
    else if pid_exists t p then some p else none

/-- The cache-refresh `match` of `ProcessDetector::pid` (bumper.rs:75-106):
a fresh candidate from `find_pid` is kept only if, when a parent PID is
required, `is_parent` confirms the candidate's actual parent; an
`is_parent` read error discards the candidate. -/
def rediscover (t : ProcFS) (det : ProcessDetection) (ppid : Option Int) : Option Int :=
  match find_pid t det with
  | some newPid =>
    match ppid with
    | some pp =>
      match is_parent t pp newPid with
      | .ok true => some newPid
      | .ok false => none
      | .error _ => none
    | none => some newPid
  | none => none

/-- `ProcessDetector::pid` (bumper.rs:45-112): resolve the parent link
first (bailing out with `none` if a parent is required but unresolved),
then trust a valid cached PID, otherwise rediscover.  Returns the resolved
PID together with the detector after its cache mutations. -/
def ProcessDetector.pid (t : ProcFS) : ProcessDetector → Option Int × ProcessDetector
  | .mk det cached none =>
    if valid t det cached then (cached, .mk det cached none)
    else
      let np := rediscover t det none
      (np, .mk det np none)
  | .mk det cached (some par) =>
    match ProcessDetector.pid t par with
    | (none, par') => (none, .mk det cached (some par'))
    | (some pp, par') =>
      if valid t det cached then (cached, .mk det cached (some par'))
      else
        let np := rediscover t det (some pp)
        (np, .mk det np (some par'))

/-- The standard POSIX signal-name table accepted by
`nix`'s `Signal::from_str` (an external collaborator of bumper.rs). -/
def signalNames : List String :=
  ["SIGHUP", "SIGINT", "SIGQUIT", "SIGILL", "SIGTRAP", "SIGABRT", "SIGBUS",
   "SIGFPE", "SIGKILL", "SIGUSR1", "SIGSEGV", "SIGUSR2", "SIGPIPE",
   "SIGALRM", "SIGTERM", "SIGSTKFLT", "SIGCHLD", "SIGCONT", "SIGSTOP",
   "SIGTSTP", "SIGTTIN", "SIGTTOU", "SIGURG", "SIGXCPU", "SIGXFSZ",
   "SIGVTALRM", "SIGPROF", "SIGWINCH", "SIGIO", "SIGPWR", "SIGSYS"]

/-- `Signal::from_str` at the external-library boundary: a name from the
POSIX signal table parses to itself. -/
def signalFromStr (s : String) : Option String :=
  if signalNames.contains s then some s else none

/-- `struct Bumper` of bumper.rs. -/
structure Bumper where
  process_tree : ProcessDetector
  signal : String

/-- `Bumper::new` (bumper.rs:191-217): reject an empty criteria list, make
the first element the parentless root detector, then fold the remaining
elements so each becomes a new detector whose parent is the chain built so
far; finally parse the signal name. -/
def Bumper.new (process_tree : List ProcessDetection) (signal : String) :
    Except Error Bumper :=
  match process_tree with
  | [] => .error (.initError "At least 1 process detection needs to be defined.")
  | d :: rest =>
    let first : ProcessDetector := .mk d none none
    let tree := rest.foldl
      (fun detector detection => ProcessDetector.mk detection none (some detector)) first
    match signalFromStr signal with
    | some sig => .ok ⟨tree, sig⟩
    | none => .error (.initError "invalid signal name")

/-- Outcome of one `Bumper::bump` call: the returned result, the bumper
after its cache mutations, and the list of PIDs a signal delivery was
attempted to (chronological). -/
structure BumpResult where
  result : Except Error Unit
  bumper : Bumper
  attempts : List Int

/-- `Bumper::bump` (bumper.rs:219-230): resolve the process tree; if a PID
is found, deliver the signal exactly once (a delivery failure becomes
`SignalError`); if none is found, succeed without sending anything. -/
def Bumper.bump (t : ProcFS) (kill : Int → Bool) (b : Bumper) : BumpResult :=
  match ProcessDetector.pid t b.process_tree with
  | (some pid, tree') =>
    ⟨if kill pid then .ok () else .error (.signalError "signal delivery failed"),
     ⟨tree', b.signal⟩, [pid]⟩
  | (none, tree') => ⟨.ok (), ⟨tree', b.signal⟩, []⟩

/-- The detection criteria of a chain, read from the detector `bump`
resolves (the top node) inward along the parent links. -/
def detections : ProcessDetector → List ProcessDetection
  | .mk det _ none => [det]
  | .mk det _ (some par) => det :: detections par

/-!
Embedding of `src/operator.rs`: the reconciliation engine's cache. The
engine's cache is a map from resource name to prepared state; the generic
`Operator` (its `prepare` and `reconcile`) is passed as plain functions,
with `reconcile`'s `Result` modelled as a `Bool` success flag.
-/

/-- `OperatorState` of operator.rs: the name-keyed cache of prepared
objects (`HashMap<String, St>` modelled as a function). -/
structure OperatorState (St : Type) where
  objects : String → Option St

/-- `OperatorState::on_update` (operator.rs:127-143): prepare the incoming
object, insert it into the cache (unconditionally, before any consistency
check), then: if the name was absent, return the consistency
`OperatorError` (modelled as `false`); otherwise reconcile the old and new
prepared states and return the reconcile's outcome. -/
def on_update {Obj St : Type} (name : Obj → String) (prep : Obj → St)
    (rec : Option St → Option St → Bool) (s : OperatorState St) (o : Obj) :
    Bool × OperatorState St :=
  let nm := name o
  let st := prep o
  let old := s.objects nm
  let objects' : String → Option St := fun x => if x = nm then some st else s.objects x
  match old with
  | none => (false, ⟨objects'⟩)
  | some oldSt => (rec (some oldSt) (some st), ⟨objects'⟩)

/-- `OperatorState::on_create` (operator.rs:107-124): prepare and insert;
if the name was already cached, reconcile as an update (recovered
duplicate), else reconcile as a creation. -/
def on_create {Obj St : Type} (name : Obj → String) (prep : Obj → St)
    (rec : Option St → Option St → Bool) (s : OperatorState St) (o : Obj) :
    Bool × OperatorState St :=
  let nm := name o
  let st := prep o
  let old := s.objects nm
  let objects' : String → Option St := fun x => if x = nm then some st else s.objects x
  match old with
  | none => (rec none (some st), ⟨objects'⟩)
  | some oldSt => (rec (some oldSt) (some st), ⟨objects'⟩)

end CmBump




namespace CmBump

/-! Helper lemmas about the passes of `reconcile`. -/

theorem containsKey_iff (nf : ConfigFiles) (k : String) :
    containsKey nf k = true ↔ k ∈ nf.map Prod.fst := by
  simp only [containsKey, List.any_eq_true, beq_iff_eq, List.mem_map]

theorem containsKey_eq_false_iff (nf : ConfigFiles) (k : String) :
    containsKey nf k = false ↔ k ∉ nf.map Prod.fst := by
  rw [← containsKey_iff nf k]
  cases containsKey nf k <;> simp

/-- A file whose name is not a key of `new` is untouched by the write loop. -/
theorem writePass_fs_of_not_key (h : String → String) (nf : ConfigFiles) (fs : FS)
    (u : Bool) (k : String) (hk : k ∉ nf.map Prod.fst) :
    (writePass h nf fs u).1 k = fs k := by
  induction nf generalizing fs u with
  | nil => rfl
  | cons p rest ih =>
    obtain ⟨name, cfg⟩ := p
    rw [List.map_cons] at hk
    simp only [List.mem_cons, not_or] at hk
    obtain ⟨hk1, hk2⟩ := hk
    cases hfs : fs name with
    | some data =>
      by_cases hd : h data = cfg.digest
      · simp only [writePass, hfs, hd, if_pos]
        exact ih fs u hk2
      · simp only [writePass, hfs, hd, if_neg, not_false_eq_true]
        rw [ih _ _ hk2]
        simp [writeFile, hk1]
    | none =>
      simp only [writePass, hfs]
      rw [ih _ _ hk2]
      simp [writeFile, hk1]

/-- When every file of `new` is already on disk with a matching checksum,
the write loop does nothing at all. -/
theorem writePass_skip_all (h : String → String) (nf : ConfigFiles) (fs : FS) (u : Bool)
    (hskip : ∀ p ∈ nf, ∃ c, fs p.1 = some c ∧ h c = p.2.digest) :
    writePass h nf fs u = (fs, u, []) := by
  induction nf with
  | nil => rfl
  | cons p rest ih =>
    obtain ⟨name, cfg⟩ := p
    obtain ⟨c, hc, hd⟩ := hskip (name, cfg) (List.mem_cons_self _ _)
    simp only [writePass, hc, hd, if_pos]
    exact ih (fun q hq => hskip q (List.mem_cons_of_mem _ hq))

/-- After the write loop, every file of `new` is on disk with content whose
checksum equals the expected digest (assuming the prepared-file-set
invariant `digest = h content` and unique keys). -/
theorem writePass_post (h : String → String) (nf : ConfigFiles) (fs : FS) (u : Bool)
    (hnd : (nf.map Prod.fst).Nodup)
    (hdig : ∀ p ∈ nf, h p.2.content = p.2.digest) :
    ∀ p ∈ nf, ∃ c, (writePass h nf fs u).1 p.1 = some c ∧ h c = p.2.digest := by
  induction nf generalizing fs u with
  | nil => intro p hp; cases hp
  | cons q rest ih =>
    obtain ⟨name, cfg⟩ := q
    rw [List.map_cons, List.nodup_cons] at hnd
    obtain ⟨hname, hndr⟩ := hnd
    intro p hp
    rcases List.mem_cons.mp hp with hp | hp
    · subst hp
      cases hfs : fs name with
      | some data =>
        by_cases hd : h data = cfg.digest
        · simp only [writePass, hfs, hd, if_pos]
          refine ⟨data, ?_, hd⟩
          rw [writePass_fs_of_not_key h rest fs u name hname, hfs]
        · simp only [writePass, hfs, hd, if_neg, not_false_eq_true]
          refine ⟨cfg.content, ?_, hdig (name, cfg) (List.mem_cons_self _ _)⟩
          rw [writePass_fs_of_not_key h rest _ true name hname]
          simp [writeFile]
      | none =>
        simp only [writePass, hfs]
        refine ⟨cfg.content, ?_, hdig (name, cfg) (List.mem_cons_self _ _)⟩
        rw [writePass_fs_of_not_key h rest _ true name hname]
        simp [writeFile]
    · have hdigr : ∀ r ∈ rest, h r.2.content = r.2.digest :=
        fun r hr => hdig r (List.mem_cons_of_mem _ hr)
      cases hfs : fs name with
      | some data =>
        by_cases hd : h data = cfg.digest
        · simp only [writePass, hfs, hd, if_pos]
          exact ih fs u hndr hdigr p hp
        · simp only [writePass, hfs, hd, if_neg, not_false_eq_true]
          exact ih _ true hndr hdigr p hp
      | none =>
        simp only [writePass, hfs]
        exact ih _ true hndr hdigr p hp

/-- The write loop never emits a dispatcher event. -/
theorem writePass_bumped_not_mem (h : String → String) (nf : ConfigFiles) (fs : FS)
    (u : Bool) : Event.bumped ∉ (writePass h nf fs u).2.2 := by
  induction nf generalizing fs u with
  | nil => simp [writePass]
  | cons q rest ih =>
    obtain ⟨name, cfg⟩ := q
    cases hfs : fs name with
    | some data =>
      by_cases hd : h data = cfg.digest
      · simp only [writePass, hfs, hd, if_pos]
        exact ih fs u
      · simp only [writePass, hfs, hd, if_neg, not_false_eq_true, List.mem_cons]
        rintro (hc | hc)
        · cases hc
        · exact ih _ true hc
    | none =>
      simp only [writePass, hfs, List.mem_cons]
      rintro (hc | hc)
      · cases hc
      · exact ih _ true hc

/-- Every `written` event of the write loop names a key of `new`. -/
theorem writePass_written_key (h : String → String) (nf : ConfigFiles) (fs : FS)
    (u : Bool) (k : String)
    (hmem : Event.written k ∈ (writePass h nf fs u).2.2) : k ∈ nf.map Prod.fst := by
  induction nf generalizing fs u with
  | nil => cases hmem
  | cons q rest ih =>
    obtain ⟨name, cfg⟩ := q
    rw [List.map_cons]
    cases hfs : fs name with
    | some data =>
      by_cases hd : h data = cfg.digest
      · simp only [writePass, hfs, hd, if_pos] at hmem
        exact List.mem_cons_of_mem _ (ih fs u hmem)
      · simp only [writePass, hfs, hd, if_neg, not_false_eq_true, List.mem_cons] at hmem
        rcases hmem with hc | hc
        · injection hc with hc; exact hc ▸ List.mem_cons_self _ _
        · exact List.mem_cons_of_mem _ (ih _ true hc)
    | none =>
      simp only [writePass, hfs, List.mem_cons] at hmem
      rcases hmem with hc | hc
      · injection hc with hc; exact hc ▸ List.mem_cons_self _ _
      · exact List.mem_cons_of_mem _ (ih _ true hc)

/-- The `updated` flag of the write loop is set exactly when it started set
or some file was written. -/
theorem writePass_updated_iff (h : String → String) (nf : ConfigFiles) (fs : FS)
    (u : Bool) :
    (writePass h nf fs u).2.1 = true ↔
      (u = true ∨ ∃ n, Event.written n ∈ (writePass h nf fs u).2.2) := by
  induction nf generalizing fs u with
  | nil => simp [writePass]
  | cons q rest ih =>
    obtain ⟨name, cfg⟩ := q
    cases hfs : fs name with
    | some data =>
      by_cases hd : h data = cfg.digest
      · simp only [writePass, hfs, hd, if_pos]
        exact ih fs u
      · simp only [writePass, hfs, hd, if_neg, not_false_eq_true, List.mem_cons]
        rw [ih _ true]
        constructor
        · intro _; right; exact ⟨name, Or.inl rfl⟩
        · intro _; left; rfl
    | none =>
      simp only [writePass, hfs, List.mem_cons]
      rw [ih _ true]
      constructor
      · intro _; right; exact ⟨name, Or.inl rfl⟩
      · intro _; left; rfl

/-- A file of `new` that is already on disk with a matching checksum is
neither rewritten nor has a `written` event emitted for it. -/
theorem writePass_untouched (h : String → String) (nf : ConfigFiles) (fs : FS)
    (u : Bool) (k : String) (cfg : ConfigFile) (data : String)
    (hnd : (nf.map Prod.fst).Nodup) (hmem : (k, cfg) ∈ nf)
    (hfsk : fs k = some data) (hd : h data = cfg.digest) :
    (writePass h nf fs u).1 k = some data ∧
      Event.written k ∉ (writePass h nf fs u).2.2 := by
  induction nf generalizing fs u with
  | nil => cases hmem
  | cons q rest ih =>
    obtain ⟨name, cfg'⟩ := q
    rw [List.map_cons, List.nodup_cons] at hnd
    obtain ⟨hname, hndr⟩ := hnd
    rcases List.mem_cons.mp hmem with hq | hq
    · injection hq with hq1 hq2
      subst hq1
      subst hq2
      simp only [writePass, hfsk, hd, if_pos]
      constructor
      · rw [writePass_fs_of_not_key h rest fs u k hname, hfsk]
      · intro hc
        exact hname (writePass_written_key h rest fs u k hc)
    · have hkne : k ≠ name := by
        intro he
        exact hname (he ▸ (List.mem_map.mpr ⟨(k, cfg), hq, rfl⟩))
      cases hfs : fs name with
      | some d2 =>
        by_cases hd2 : h d2 = cfg'.digest
        · simp only [writePass, hfs, hd2, if_pos]
          exact ih fs u hndr hq hfsk
        · simp only [writePass, hfs, hd2, if_neg, not_false_eq_true, List.mem_cons]
          have hw : (writeFile fs name cfg'.content) k = some data := by
            simp [writeFile, hkne, hfsk]
          obtain ⟨h1, h2⟩ := ih _ true hndr hq hw
          refine ⟨h1, ?_⟩
          rintro (hc | hc)
          · injection hc with hc; exact hkne hc
          · exact h2 hc
      | none =>
        simp only [writePass, hfs, List.mem_cons]
        have hw : (writeFile fs name cfg'.content) k = some data := by
          simp [writeFile, hkne, hfsk]
        obtain ⟨h1, h2⟩ := ih _ true hndr hq hw
        refine ⟨h1, ?_⟩
        rintro (hc | hc)
        · injection hc with hc; exact hkne hc
        · exact h2 hc

/-- A file that is still a key of `new` is untouched by the deletion loop. -/
theorem deletePass_fs_contains (nf : ConfigFiles) (keys : List String) (fs : FS)
    (k : String) (hc : containsKey nf k = true) :
    (deletePass nf keys fs).1 k = fs k := by
  induction keys generalizing fs with
  | nil => rfl
  | cons f rest ih =>
    by_cases hf : containsKey nf f = true
    · simp only [deletePass, hf, if_pos]
      exact ih fs
    · simp only [deletePass, hf, if_neg, not_false_eq_true, Bool.not_eq_true]
      rw [ih (removeFile fs f)]
      have hkf : k ≠ f := by
        intro he
        exact hf (he ▸ hc)
      simp [removeFile, hkf]

/-- A file that is not among the iterated old keys is untouched by the
deletion loop. -/
theorem deletePass_fs_not_key (nf : ConfigFiles) (keys : List String) (fs : FS)
    (k : String) (hk : k ∉ keys) :
    (deletePass nf keys fs).1 k = fs k := by
  induction keys generalizing fs with
  | nil => rfl
  | cons f rest ih =>
    simp only [List.mem_cons, not_or] at hk
    obtain ⟨hk1, hk2⟩ := hk
    by_cases hf : containsKey nf f = true
    · simp only [deletePass, hf, if_pos]
      exact ih fs hk2
    · simp only [deletePass, hf, if_neg, not_false_eq_true, Bool.not_eq_true]
      rw [ih (removeFile fs f) hk2]
      simp [removeFile, hk1]

/-- A file among the old keys that is no longer a key of `new` is absent
after the deletion loop. -/
theorem deletePass_fs_none (nf : ConfigFiles) (keys : List String) (fs : FS)
    (k : String) (hc : containsKey nf k = false) (hk : k ∈ keys) :
    (deletePass nf keys fs).1 k = none := by
  induction keys generalizing fs with
  | nil => cases hk
  | cons f rest ih =>
    by_cases hf : containsKey nf f = true
    · have hkf : k ≠ f := by
        intro he
        rw [he, hf] at hc
        cases hc
      simp only [deletePass, hf, if_pos]
      exact ih fs (List.mem_cons.mp hk |>.resolve_left hkf)
    · simp only [deletePass, hf, if_neg, not_false_eq_true, Bool.not_eq_true]
      by_cases hkr : k ∈ rest
      · exact ih (removeFile fs f) hkr
      · have hkf : k = f := (List.mem_cons.mp hk).resolve_right hkr
        rw [deletePass_fs_not_key nf rest (removeFile fs f) k hkr]
        simp [removeFile, hkf]

/-- Every event of the deletion loop is a `deleted` event. -/
theorem deletePass_events (nf : ConfigFiles) (keys : List String) (fs : FS)
    (e : Event) (he : e ∈ (deletePass nf keys fs).2) : ∃ n, e = Event.deleted n := by
  induction keys generalizing fs with
  | nil => cases he
  | cons f rest ih =>
    by_cases hf : containsKey nf f = true
    · simp only [deletePass, hf, if_pos] at he
      exact ih fs he
    · simp only [deletePass, hf, if_neg, not_false_eq_true, Bool.not_eq_true,
        List.mem_cons] at he
      rcases he with he | he
      · exact ⟨f, he⟩
      · exact ih (removeFile fs f) he

/-- The keys whose on-disk files the deletion loop of `reconcile` iterates:
the keys of `old`, or nothing when `old` is absent. -/
def keysOf : Option ConfigFiles → List String
  | some oldFiles => oldFiles.map Prod.fst
  | none => []

/-- Normal form of `reconcile` on a present `new`: delete pass over the old
keys, then write pass, then the conditional single dispatcher invocation,
whose failure is the only error source. -/
theorem reconcile_some_eq (h : String → String) (bumper : Option Bool)
    (old : Option ConfigFiles) (nf : ConfigFiles) (fs : FS) :
    reconcile h bumper old (some nf) fs =
      ⟨(writePass h nf (deletePass nf (keysOf old) fs).1 false).1,
       (writePass h nf (deletePass nf (keysOf old) fs).1 false).2.1,
       (deletePass nf (keysOf old) fs).2 ++
         (writePass h nf (deletePass nf (keysOf old) fs).1 false).2.2 ++
         (if (writePass h nf (deletePass nf (keysOf old) fs).1 false).2.1 &&
             bumper.isSome then [Event.bumped] else []),
       !((writePass h nf (deletePass nf (keysOf old) fs).1 false).2.1 &&
         (bumper == some false))⟩ := by
  cases old with
  | none =>
    show (let d : FS × List Event := ((fs : FS), ([] : List Event));
      let w := writePass h nf d.1 false;
      if w.2.1 then
        match bumper with
        | some bumpOk => ReconcileResult.mk w.1 w.2.1 (d.2 ++ w.2.2 ++ [Event.bumped]) bumpOk
        | none => ReconcileResult.mk w.1 w.2.1 (d.2 ++ w.2.2) true
      else ReconcileResult.mk w.1 w.2.1 (d.2 ++ w.2.2) true) = _
    cases hu : (writePass h nf fs false).2.1 <;> cases bumper <;>
      simp [keysOf, deletePass, hu]
  | some oldFiles =>
    show (let d := deletePass nf (oldFiles.map Prod.fst) fs;
      let w := writePass h nf d.1 false;
      if w.2.1 then
        match bumper with
        | some bumpOk => ReconcileResult.mk w.1 w.2.1 (d.2 ++ w.2.2 ++ [Event.bumped]) bumpOk
        | none => ReconcileResult.mk w.1 w.2.1 (d.2 ++ w.2.2) true
      else ReconcileResult.mk w.1 w.2.1 (d.2 ++ w.2.2) true) = _
    cases hu : (writePass h nf (deletePass nf (oldFiles.map Prod.fst) fs).1 false).2.1 <;>
      cases bumper <;> simp [keysOf, hu]

/-- Once every file of `new` is on disk with a matching checksum and every
stale old file is already gone, a further `reconcile` pass changes nothing:
its delete loop is pointwise inert and its write loop skips every file. -/
theorem second_pass_noop (h : String → String) (old : Option ConfigFiles)
    (nf : ConfigFiles) (fs1 : FS)
    (hpost : ∀ p ∈ nf, ∃ c, fs1 p.1 = some c ∧ h c = p.2.digest)
    (hprev : ∀ k, k ∈ keysOf old → containsKey nf k = false → fs1 k = none) :
    (∀ k, (deletePass nf (keysOf old) fs1).1 k = fs1 k) ∧
      writePass h nf (deletePass nf (keysOf old) fs1).1 false
        = ((deletePass nf (keysOf old) fs1).1, false, []) := by
  have hd2 : ∀ k, (deletePass nf (keysOf old) fs1).1 k = fs1 k := by
    intro k
    cases hc : containsKey nf k with
    | true => exact deletePass_fs_contains nf _ _ k hc
    | false =>
      by_cases hk : k ∈ keysOf old
      · rw [deletePass_fs_none nf _ fs1 k hc hk, hprev k hk hc]
      · exact deletePass_fs_not_key nf _ _ k hk
  refine ⟨hd2, writePass_skip_all h nf _ false ?_⟩
  intro p hp
  obtain ⟨c, hc, hdg⟩ := hpost p hp
  exact ⟨c, (hd2 p.1).trans hc, hdg⟩

/-! Claim theorems for the Config Materializer (`updater.rs`). -/

/-- C1 (amended): `reconcile(Some(old), None)` — the reconcile call made by
the engine's delete path — takes no filesystem action at all: the entire
body of `ConfigUpdater::reconcile` is guarded by `new` being present, so no
file (in particular none of the files owned by `old`) is removed, no event
occurs and the call succeeds. -/
theorem C1_delete_reconcile_is_noop (h : String → String) (bumper : Option Bool)
    (old : ConfigFiles) (fs : FS) :
    reconcile h bumper (some old) none fs = ⟨fs, false, [], true⟩ := rfl

/-- Base directory holding exactly the file `a.txt`, the file owned by
`oldC1`. -/
def fsC1 : FS := fun n => if n = "a.txt" then some "x" else none

/-- A prepared file set owning the single file `a.txt`. -/
def oldC1 : ConfigFiles := [("a.txt", ⟨"x", "x"⟩)]

/-- C1 counterexample: after `reconcile(Some(oldC1), None)` the file
`a.txt` owned by `oldC1` is still on disk with its old content — it was
not removed, contradicting the claim that the deletion pass removes every
file owned by `old`. -/
theorem C1_counterexample :
    (reconcile (fun s => s) none (some oldC1) none fsC1).fs "a.txt" = some "x" ∧
      ¬ (reconcile (fun s => s) none (some oldC1) none fsC1).fs "a.txt" = none := by
  exact ⟨by decide, by decide⟩

/-- C2: `reconcile` is idempotent on prepared file sets (digest equal to
the checksum of the content, unique file names — the invariants `prepare`
and `BTreeMap` guarantee): running the same `(old, new)` pair a second time
with no intervening filesystem change leaves every on-disk file exactly as
after the first run, and the second run never invokes the dispatcher. -/
theorem C2_reconcile_idempotent (h : String → String) (bumper : Option Bool)
    (old new : Option ConfigFiles) (fs : FS)
    (hprep : ∀ nf, new = some nf →
      (∀ p ∈ nf, h p.2.content = p.2.digest) ∧ (nf.map Prod.fst).Nodup) :
    (∀ n, (reconcile h bumper old new (reconcile h bumper old new fs).fs).fs n =
        (reconcile h bumper old new fs).fs n) ∧
      Event.bumped ∉ (reconcile h bumper old new (reconcile h bumper old new fs).fs).events := by
  cases new with
  | none => exact ⟨fun n => rfl, by simp [reconcile]⟩
  | some nf =>
    obtain ⟨hdig, hnd⟩ := hprep nf rfl
    have hfs1 : (reconcile h bumper old (some nf) fs).fs
        = (writePass h nf (deletePass nf (keysOf old) fs).1 false).1 := by
      rw [reconcile_some_eq]
    have hpost : ∀ p ∈ nf, ∃ c,
        (reconcile h bumper old (some nf) fs).fs p.1 = some c ∧ h c = p.2.digest := by
      rw [hfs1]
      exact writePass_post h nf _ false hnd hdig
    have hprev : ∀ k, k ∈ keysOf old → containsKey nf k = false →
        (reconcile h bumper old (some nf) fs).fs k = none := by
      intro k hk hc
      rw [hfs1,
        writePass_fs_of_not_key h nf _ false k ((containsKey_eq_false_iff nf k).mp hc),
        deletePass_fs_none nf _ fs k hc hk]
    obtain ⟨hd2, hw2⟩ := second_pass_noop h old nf _ hpost hprev
    constructor
    · intro n
      rw [reconcile_some_eq h bumper old nf ((reconcile h bumper old (some nf) fs).fs)]
      show (writePass h nf
        (deletePass nf (keysOf old) ((reconcile h bumper old (some nf) fs).fs)).1 false).1 n = _
      rw [hw2]
      exact hd2 n
    · rw [reconcile_some_eq h bumper old nf ((reconcile h bumper old (some nf) fs).fs)]
      show Event.bumped ∉
        (deletePass nf (keysOf old) ((reconcile h bumper old (some nf) fs).fs)).2 ++
          (writePass h nf
            (deletePass nf (keysOf old) ((reconcile h bumper old (some nf) fs).fs)).1 false).2.2 ++
          (if (writePass h nf
              (deletePass nf (keysOf old) ((reconcile h bumper old (some nf) fs).fs)).1
              false).2.1 && bumper.isSome then [Event.bumped] else [])
      rw [hw2]
      simp only [Bool.false_and, Bool.false_eq_true, if_false, List.append_nil]
      intro hmem
      obtain ⟨m, hm⟩ := deletePass_events nf _ _ _ hmem
      cases hm

/-- C2 witness at a concrete prepared pair: creating `a` (content `x`) over
old set `{b}` on an empty directory, then reconciling again. -/
theorem C2_witness :
    (∀ nf, (some [("a", ConfigFile.mk "x" "x")] : Option ConfigFiles) = some nf →
        (∀ p ∈ nf, (fun s => s) p.2.content = p.2.digest) ∧ (nf.map Prod.fst).Nodup) ∧
    ((∀ n, (reconcile (fun s => s) (some true) (some [("b", ⟨"y", "y"⟩)])
          (some [("a", ⟨"x", "x"⟩)])
          (reconcile (fun s => s) (some true) (some [("b", ⟨"y", "y"⟩)])
            (some [("a", ⟨"x", "x"⟩)]) (fun _ => none)).fs).fs n =
        (reconcile (fun s => s) (some true) (some [("b", ⟨"y", "y"⟩)])
          (some [("a", ⟨"x", "x"⟩)]) (fun _ => none)).fs n) ∧
      Event.bumped ∉ (reconcile (fun s => s) (some true) (some [("b", ⟨"y", "y"⟩)])
          (some [("a", ⟨"x", "x"⟩)])
          (reconcile (fun s => s) (some true) (some [("b", ⟨"y", "y"⟩)])
            (some [("a", ⟨"x", "x"⟩)]) (fun _ => none)).fs).events) := by
  have hp : ∀ nf, (some [("a", ConfigFile.mk "x" "x")] : Option ConfigFiles) = some nf →
      (∀ p ∈ nf, (fun s => s) p.2.content = p.2.digest) ∧ (nf.map Prod.fst).Nodup := by
    intro nf hnf
    injection hnf with hnf
    subst hnf
    exact ⟨by decide, by decide⟩
  exact ⟨hp, C2_reconcile_idempotent (fun s => s) (some true) (some [("b", ⟨"y", "y"⟩)])
    (some [("a", ⟨"x", "x"⟩)]) (fun _ => none) hp⟩

/-- Shape of the event trace around the single conditional dispatcher
invocation appended after the delete and write loops. -/
theorem bump_trace_shape (E : List Event) (u : Bool) (bumper : Option Bool)
    (hb : Event.bumped ∉ E) :
    ((E ++ (if u && bumper.isSome then [Event.bumped] else [])).count Event.bumped
      = if u && bumper.isSome then 1 else 0) ∧
    (Event.bumped ∈ E ++ (if u && bumper.isSome then [Event.bumped] else []) →
      (E ++ (if u && bumper.isSome then [Event.bumped] else [])).getLast?
        = some Event.bumped) := by
  cases hub : u && bumper.isSome
  · simp only [hub, Bool.false_eq_true, if_false, List.append_nil]
    exact ⟨List.count_eq_zero.mpr hb, fun hmem => absurd hmem hb⟩
  · simp only [hub, if_true]
    constructor
    · rw [List.count_append, List.count_eq_zero.mpr hb]
      simp
    · intro _
      simp

/-- C3: during `reconcile(old, Some(new))` the dispatcher is invoked at
most once — its invocation count is 1 exactly when the pass wrote at least
one file and a dispatcher is configured, else 0; when invoked it is the
last event of the pass (after every delete and write); the pass is marked
updated iff some file was actually written; and the call errors exactly
when the dispatcher was invoked and its dispatch failed. -/
theorem C3_dispatcher_once_after_writes (h : String → String) (bumper : Option Bool)
    (old : Option ConfigFiles) (nf : ConfigFiles) (fs : FS) :
    ((reconcile h bumper old (some nf) fs).events.count Event.bumped =
      if (reconcile h bumper old (some nf) fs).updated && bumper.isSome then 1 else 0) ∧
    (Event.bumped ∈ (reconcile h bumper old (some nf) fs).events →
      (reconcile h bumper old (some nf) fs).events.getLast? = some Event.bumped) ∧
    ((reconcile h bumper old (some nf) fs).updated = true ↔
      ∃ n, Event.written n ∈ (reconcile h bumper old (some nf) fs).events) ∧
    ((reconcile h bumper old (some nf) fs).ok = false ↔
      ((reconcile h bumper old (some nf) fs).updated = true ∧ bumper = some false)) := by
  have hbw := writePass_bumped_not_mem h nf (deletePass nf (keysOf old) fs).1 false
  have hbd := deletePass_events nf (keysOf old) fs
  have hui := writePass_updated_iff h nf (deletePass nf (keysOf old) fs).1 false
  have hbE : Event.bumped ∉
      (deletePass nf (keysOf old) fs).2 ++
        (writePass h nf (deletePass nf (keysOf old) fs).1 false).2.2 := by
    intro hmem
    rcases List.mem_append.mp hmem with hm | hm
    · obtain ⟨m, hm'⟩ := hbd _ hm
      cases hm'
    · exact hbw hm
  obtain ⟨hcount, hlast⟩ := bump_trace_shape _
    (writePass h nf (deletePass nf (keysOf old) fs).1 false).2.1 bumper hbE
  have hwr : ∀ n : String,
      Event.written n ∈
          (deletePass nf (keysOf old) fs).2 ++
            (writePass h nf (deletePass nf (keysOf old) fs).1 false).2.2 ++
            (if (writePass h nf (deletePass nf (keysOf old) fs).1 false).2.1 &&
                bumper.isSome then [Event.bumped] else []) ↔
        Event.written n ∈
          (writePass h nf (deletePass nf (keysOf old) fs).1 false).2.2 := by
    intro n
    simp only [List.mem_append]
    constructor
    · rintro ((hm | hm) | hm)
      · obtain ⟨m, hm'⟩ := hbd _ hm
        cases hm'
      · exact hm
      · revert hm
        split <;> simp
    · intro hm
      exact Or.inl (Or.inr hm)
  simp only [reconcile_some_eq]
  refine ⟨hcount, hlast, ?_, ?_⟩
  · simp only [hwr]
    rw [hui]
    simp
  · cases hw2 : (writePass h nf (deletePass nf (keysOf old) fs).1 false).2.1 <;>
      rcases bumper with _ | b
    · simp
    · cases b <;> simp
    · simp
    · cases b <;> simp

/-- C3 witness: creating one file on an empty directory with a working
dispatcher configured. -/
theorem C3_witness :
    ((reconcile (fun s => s) (some true) none (some [("a", ⟨"x", "x"⟩)])
        (fun _ => none)).events.count Event.bumped =
      if (reconcile (fun s => s) (some true) none (some [("a", ⟨"x", "x"⟩)])
          (fun _ => none)).updated && (some true : Option Bool).isSome then 1 else 0) ∧
    (Event.bumped ∈ (reconcile (fun s => s) (some true) none (some [("a", ⟨"x", "x"⟩)])
        (fun _ => none)).events →
      (reconcile (fun s => s) (some true) none (some [("a", ⟨"x", "x"⟩)])
        (fun _ => none)).events.getLast? = some Event.bumped) ∧
    ((reconcile (fun s => s) (some true) none (some [("a", ⟨"x", "x"⟩)])
        (fun _ => none)).updated = true ↔
      ∃ n, Event.written n ∈ (reconcile (fun s => s) (some true) none
        (some [("a", ⟨"x", "x"⟩)]) (fun _ => none)).events) ∧
    ((reconcile (fun s => s) (some true) none (some [("a", ⟨"x", "x"⟩)])
        (fun _ => none)).ok = false ↔
      ((reconcile (fun s => s) (some true) none (some [("a", ⟨"x", "x"⟩)])
          (fun _ => none)).updated = true ∧ (some true : Option Bool) = some false)) :=
  C3_dispatcher_once_after_writes (fun s => s) (some true) none [("a", ⟨"x", "x"⟩)]
    (fun _ => none)

/-- C9: a file of `new` that already exists on disk with a freshly
recomputed checksum equal to its expected digest is not written: its
content is exactly what was on disk before and no `written` event for it is
emitted by the pass. -/
theorem C9_matching_file_untouched (h : String → String) (bumper : Option Bool)
    (old : Option ConfigFiles) (nf : ConfigFiles) (fs : FS)
    (k : String) (cfg : ConfigFile) (data : String)
    (hnd : (nf.map Prod.fst).Nodup) (hmem : (k, cfg) ∈ nf)
    (hdisk : fs k = some data) (hmatch : h data = cfg.digest) :
    (reconcile h bumper old (some nf) fs).fs k = some data ∧
      Event.written k ∉ (reconcile h bumper old (some nf) fs).events := by
  have hc : containsKey nf k = true :=
    (containsKey_iff nf k).mpr (List.mem_map.mpr ⟨(k, cfg), hmem, rfl⟩)
  have hd1 : (deletePass nf (keysOf old) fs).1 k = some data := by
    rw [deletePass_fs_contains nf _ fs k hc, hdisk]
  obtain ⟨h1, h2⟩ := writePass_untouched h nf (deletePass nf (keysOf old) fs).1 false
    k cfg data hnd hmem hd1 hmatch
  have hbd := deletePass_events nf (keysOf old) fs
  simp only [reconcile_some_eq]
  refine ⟨h1, ?_⟩
  simp only [List.mem_append]
  rintro ((hm | hm) | hm)
  · obtain ⟨m, hm'⟩ := hbd _ hm
    cases hm'
  · exact h2 hm
  · revert hm
    split <;> simp

/-- C9 witness: the single file `a` already on disk with matching content
is untouched by an update pass. -/
theorem C9_witness :
    ([("a", ConfigFile.mk "x" "x")].map Prod.fst).Nodup ∧
    (("a", ConfigFile.mk "x" "x") ∈ [("a", ConfigFile.mk "x" "x")]) ∧
    ((reconcile (fun s => s) (some true) none (some [("a", ⟨"x", "x"⟩)])
        (fun n => if n = "a" then some "x" else none)).fs "a" = some "x" ∧
      Event.written "a" ∉ (reconcile (fun s => s) (some true) none
        (some [("a", ⟨"x", "x"⟩)]) (fun n => if n = "a" then some "x" else none)).events) :=
  ⟨by decide, by decide,
    C9_matching_file_untouched (fun s => s) (some true) none [("a", ⟨"x", "x"⟩)]
      (fun n => if n = "a" then some "x" else none) "a" ⟨"x", "x"⟩ "x"
      (by decide) (by decide) (by decide) (by decide)⟩

/-! Claim theorems for the Process Resolver and Signal Dispatcher
(`bumper.rs`). -/

/-- The fold of `Bumper::new` stacks each further criterion on top of the
chain built so far, so reading the criteria from the final (signalled)
detector inward yields the input list reversed. -/
theorem detections_foldl (l : List ProcessDetection) (acc : ProcessDetector) :
    detections (l.foldl (fun detector detection =>
        ProcessDetector.mk detection none (some detector)) acc)
      = l.reverse ++ detections acc := by
  induction l generalizing acc with
  | nil => simp
  | cons d rest ih =>
    rw [List.foldl_cons, ih, List.reverse_cons]
    simp [detections]

/-- C4 (amended): `Bumper::new` interprets its criteria list as ordered
from the OUTERMOST required ancestor (first element) to the TARGET process
(last element): the detector that resolution and signalling use carries the
criteria in reverse list order along its parent links, so the signalled
process is the one matched by the last criterion, with the first criterion
as the parentless root ancestor. -/
theorem C4_chain_reversed (ds : List ProcessDetection) (sig : String) (b : Bumper)
    (hok : Bumper.new ds sig = .ok b) :
    detections b.process_tree = ds.reverse := by
  cases ds with
  | nil => cases hok
  | cons d rest =>
    simp only [Bumper.new] at hok
    cases hsig : signalFromStr sig with
    | none =>
      rw [hsig] at hok
      cases hok
    | some sg =>
      rw [hsig] at hok
      injection hok with hok
      rw [← hok]
      show detections (rest.foldl
        (fun detector detection => ProcessDetector.mk detection none (some detector))
        (ProcessDetector.mk d none none)) = _
      rw [detections_foldl, List.reverse_cons]
      simp [detections]

/-- C4 witness: for the two-element list `[pid 1, pid 2]` the constructed
chain, read from the signalled detector inward, is the reversed list. -/
theorem C4_witness :
    Bumper.new [ProcessDetection.pid 1, ProcessDetection.pid 2] "SIGHUP" =
        Except.ok ⟨ProcessDetector.mk (ProcessDetection.pid 2) none
          (some (ProcessDetector.mk (ProcessDetection.pid 1) none none)), "SIGHUP"⟩ ∧
      detections (Bumper.mk (ProcessDetector.mk (ProcessDetection.pid 2) none
          (some (ProcessDetector.mk (ProcessDetection.pid 1) none none)))
          "SIGHUP").process_tree =
        [ProcessDetection.pid 1, ProcessDetection.pid 2].reverse :=
  ⟨rfl, C4_chain_reversed [ProcessDetection.pid 1, ProcessDetection.pid 2] "SIGHUP" _ rfl⟩

/-- A live process table with PID 1 (child of 0) and PID 2 (child of 1). -/
def procC4 : ProcFS := ⟨[⟨"1", ["init"], 0⟩, ⟨"2", ["worker"], 1⟩]⟩

/-- C4 counterexample: with criteria `[pid 1, pid 2]` (both alive, 2 a
child of 1) the signal is delivered to PID 2 — the process matched by the
LAST criterion — not to PID 1 as the claim (first criterion = target)
predicts. -/
theorem C4_counterexample :
    (Bumper.new [ProcessDetection.pid 1, ProcessDetection.pid 2] "SIGHUP").map
        (fun b => (Bumper.bump procC4 (fun _ => true) b).attempts) = Except.ok [2] ∧
      ((2 : Int) = 1 → False) := by
  exact ⟨rfl, by decide⟩

/-- C5 (amended): a link's cached PID is trusted without a fresh search
after re-validation against the link's OWN detection criterion alone
(`valid`): whenever the parent chain resolves to some PID, a
criterion-valid cache is returned as-is, with no check of the cached PID's
actual parent against the parent chain's PID (that ancestry check is
applied only to freshly discovered candidates). -/
theorem C5_cache_trusted_on_own_criterion (t : ProcFS) (det : ProcessDetection)
    (cached : Option Int) (par : ProcessDetector) (pp : Int)
    (hpar : (ProcessDetector.pid t par).1 = some pp)
    (hval : valid t det cached = true) :
    ProcessDetector.pid t (ProcessDetector.mk det cached (some par)) =
      (cached, ProcessDetector.mk det cached (some (ProcessDetector.pid t par).2)) := by
  rcases hpq : ProcessDetector.pid t par with ⟨r, par'⟩
  have hr : r = some pp := by rw [hpq] at hpar; exact hpar
  subst hr
  simp [ProcessDetector.pid, hpq, hval]

/-- A live process table where PID 10 is alive, and PID 5 matches the
cmdline pattern `foo` but has actual parent 99. -/
def procC5 : ProcFS := ⟨[⟨"10", ["parentproc"], 0⟩, ⟨"5", ["foo"], 99⟩]⟩

/-- C5 counterexample: the child link's cached PID 5 still matches its own
cmdline criterion, so resolution returns 5 — even though process 5's actual
parent is 99, not the parent chain's resolved PID 10: the cache was trusted
without re-validation against the parent's PID. -/
theorem C5_counterexample :
    (ProcessDetector.pid procC5
        (ProcessDetector.mk (ProcessDetection.cmdline (fun s => s == "foo")) (some 5)
          (some (ProcessDetector.mk (ProcessDetection.pid 10) none none)))).1 = some 5 ∧
      is_parent procC5 10 5 = Except.ok false :=
  ⟨rfl, rfl⟩

/-- C5 witness: the amended theorem applied to the `procC5` situation. -/
theorem C5_witness :
    (ProcessDetector.pid procC5 (ProcessDetector.mk (ProcessDetection.pid 10) none none)).1
        = some 10 ∧
      valid procC5 (ProcessDetection.cmdline (fun s => s == "foo")) (some 5) = true ∧
      ProcessDetector.pid procC5
          (ProcessDetector.mk (ProcessDetection.cmdline (fun s => s == "foo")) (some 5)
            (some (ProcessDetector.mk (ProcessDetection.pid 10) none none))) =
        (some 5, ProcessDetector.mk (ProcessDetection.cmdline (fun s => s == "foo")) (some 5)
          (some (ProcessDetector.pid procC5
            (ProcessDetector.mk (ProcessDetection.pid 10) none none)).2)) :=
  ⟨rfl, rfl,
    C5_cache_trusted_on_own_criterion procC5
      (ProcessDetection.cmdline (fun s => s == "foo")) (some 5)
      (ProcessDetector.mk (ProcessDetection.pid 10) none none) 10 rfl rfl⟩

/-- C6: when a link has a parent and the parent's resolution returns none,
the link resolves to none immediately: for EVERY criterion and cached value
the result is none and the link's own cache is left untouched — the link's
criterion is never matched. -/
theorem C6_parent_failure_bails (t : ProcFS) (det : ProcessDetection)
    (cached : Option Int) (par : ProcessDetector)
    (hpar : (ProcessDetector.pid t par).1 = none) :
    ProcessDetector.pid t (ProcessDetector.mk det cached (some par)) =
      (none, ProcessDetector.mk det cached (some (ProcessDetector.pid t par).2)) := by
  rcases hpq : ProcessDetector.pid t par with ⟨r, par'⟩
  have hr : r = none := by rw [hpq] at hpar; exact hpar
  subst hr
  simp [ProcessDetector.pid, hpq]

/-- C6 witness: on an empty process table the parent (pid 7) cannot be
resolved, so a link with criterion pid 3 and stale cache 42 bails with none
and an unchanged cache. -/
theorem C6_witness :
    (ProcessDetector.pid ⟨[]⟩ (ProcessDetector.mk (ProcessDetection.pid 7) none none)).1
        = none ∧
      ProcessDetector.pid ⟨[]⟩ (ProcessDetector.mk (ProcessDetection.pid 3) (some 42)
          (some (ProcessDetector.mk (ProcessDetection.pid 7) none none))) =
        (none, ProcessDetector.mk (ProcessDetection.pid 3) (some 42)
          (some (ProcessDetector.pid ⟨[]⟩
            (ProcessDetector.mk (ProcessDetection.pid 7) none none)).2)) :=
  ⟨rfl, C6_parent_failure_bails ⟨[]⟩ (ProcessDetection.pid 3) (some 42)
    (ProcessDetector.mk (ProcessDetection.pid 7) none none) rfl⟩

/-- The first-match scan of `scan_proc` as a `find?` over the listing:
only entries whose name fits a u16 participate, and the first whose
reassembled cmdline matches wins. -/
theorem scanEntries_eq_find (re : String → Bool) (l : List ProcEntry) :
    scanEntries re l =
      (l.find? (fun e => (parseU16 e.dirName).isSome &&
          re (parse_cmdline e.cmdline))).bind
        (fun e => (parseU16 e.dirName).map Int.ofNat) := by
  induction l with
  | nil => rfl
  | cons e rest ih =>
    cases hp : parseU16 e.dirName with
    | some n =>
      by_cases hre : re (parse_cmdline e.cmdline) = true
      · simp [scanEntries, List.find?_cons, hp, hre]
      · simp only [Bool.not_eq_true] at hre
        simp [scanEntries, List.find?_cons, hp, hre, ih]
    | none =>
      simp [scanEntries, List.find?_cons, hp, ih]

/-- C7 (amended): when the cached PID is invalid (or absent) and the
criterion is a command-line pattern, rediscovery scans the process listing
in directory order but considers ONLY the entries whose name parses as an
unsigned 16-bit integer (Rust `parse::<u16>`, so numeric names above 65535
are skipped), and resolves to the first such entry whose reassembled
null-byte-delimited argument vector matches the pattern. -/
theorem C7_rediscovery_scans_u16_entries (t : ProcFS) (re : String → Bool)
    (cached : Option Int)
    (hval : valid t (ProcessDetection.cmdline re) cached = false) :
    (ProcessDetector.pid t
        (ProcessDetector.mk (ProcessDetection.cmdline re) cached none)).1 =
      (t.entries.find? (fun e => (parseU16 e.dirName).isSome &&
          re (parse_cmdline e.cmdline))).bind
        (fun e => (parseU16 e.dirName).map Int.ofNat) := by
  simp only [ProcessDetector.pid, hval, Bool.false_eq_true, if_false]
  show rediscover t (ProcessDetection.cmdline re) none = _
  simp only [rediscover, find_pid, scan_proc]
  rw [scanEntries_eq_find]
  cases (t.entries.find? (fun e => (parseU16 e.dirName).isSome &&
      re (parse_cmdline e.cmdline))).bind
    (fun e => (parseU16 e.dirName).map Int.ofNat) <;> rfl

/-- A live process table whose first entry has the numeric name 70000
(not representable as a u16) and whose second entry is PID 5; both match
the pattern `foo`. -/
def procC7 : ProcFS := ⟨[⟨"70000", ["foo"], 0⟩, ⟨"5", ["foo"], 0⟩]⟩

/-- C7 counterexample: `70000` is the first numeric entry of the listing
and its argument vector matches the pattern, yet rediscovery skips it
(the name does not parse as a u16) and resolves to 5 — the claim that ALL
numeric entries are searched and the first match wins predicts 70000. -/
theorem C7_counterexample :
    (parseNatAll "70000").isSome = true ∧
      (fun s => s == "foo") (parse_cmdline ["foo"]) = true ∧
      (ProcessDetector.pid procC7
          (ProcessDetector.mk (ProcessDetection.cmdline (fun s => s == "foo")) none none)).1
        = some 5 ∧
      ((some (5 : Int) : Option Int) = some 70000 → False) := by
  exact ⟨by decide, by decide, by decide, by decide⟩

/-- C7 witness: the amended theorem applied to `procC7` with an absent
cache. -/
theorem C7_witness :
    valid procC7 (ProcessDetection.cmdline (fun s => s == "foo")) none = false ∧
      (ProcessDetector.pid procC7
          (ProcessDetector.mk (ProcessDetection.cmdline (fun s => s == "foo")) none none)).1 =
        (procC7.entries.find? (fun e => (parseU16 e.dirName).isSome &&
            (fun s => s == "foo") (parse_cmdline e.cmdline))).bind
          (fun e => (parseU16 e.dirName).map Int.ofNat) :=
  ⟨rfl, C7_rediscovery_scans_u16_entries procC7 (fun s => s == "foo") none rfl⟩

/-- C8: `bump` succeeds and attempts no signal delivery when resolution
finds no matching process; when a process is resolved but delivery fails,
`bump` returns the `SignalError` after exactly one delivery attempt — no
retry. -/
theorem C8_bump_no_proc_ok_fail_once (t : ProcFS) (kill : Int → Bool) (b : Bumper) :
    ((ProcessDetector.pid t b.process_tree).1 = none →
      (Bumper.bump t kill b).result = Except.ok () ∧
        (Bumper.bump t kill b).attempts = []) ∧
    (∀ p, (ProcessDetector.pid t b.process_tree).1 = some p → kill p = false →
      (Bumper.bump t kill b).result =
          Except.error (Error.signalError "signal delivery failed") ∧
        (Bumper.bump t kill b).attempts = [p]) := by
  rcases hpq : ProcessDetector.pid t b.process_tree with ⟨r, tree'⟩
  constructor
  · intro hr
    have hr' : r = none := by simpa using hr
    subst hr'
    simp [Bumper.bump, hpq]
  · intro p hr hk
    have hr' : r = some p := by simpa using hr
    subst hr'
    simp [Bumper.bump, hpq, hk]

/-- C8 witness: on an empty table resolution fails and bump is a
successful no-op; with PID 3 alive and a failing delivery, bump errors
after the single attempt `[3]`. -/
theorem C8_witness :
    ((Bumper.bump ⟨[]⟩ (fun _ => false)
        ⟨ProcessDetector.mk (ProcessDetection.pid 7) none none, "SIGHUP"⟩).result
          = Except.ok () ∧
      (Bumper.bump ⟨[]⟩ (fun _ => false)
        ⟨ProcessDetector.mk (ProcessDetection.pid 7) none none, "SIGHUP"⟩).attempts = []) ∧
    ((Bumper.bump ⟨[⟨"3", ["x"], 0⟩]⟩ (fun _ => false)
        ⟨ProcessDetector.mk (ProcessDetection.pid 3) none none, "SIGHUP"⟩).result
          = Except.error (Error.signalError "signal delivery failed") ∧
      (Bumper.bump ⟨[⟨"3", ["x"], 0⟩]⟩ (fun _ => false)
        ⟨ProcessDetector.mk (ProcessDetection.pid 3) none none, "SIGHUP"⟩).attempts = [3]) :=
  ⟨(C8_bump_no_proc_ok_fail_once ⟨[]⟩ (fun _ => false)
      ⟨ProcessDetector.mk (ProcessDetection.pid 7) none none, "SIGHUP"⟩).1 rfl,
   (C8_bump_no_proc_ok_fail_once ⟨[⟨"3", ["x"], 0⟩]⟩ (fun _ => false)
      ⟨ProcessDetector.mk (ProcessDetection.pid 3) none none, "SIGHUP"⟩).2 3 rfl rfl⟩

/-! Claim theorem for the Reconciliation Engine (`operator.rs`). -/

/-- C10: a Modified event for a name absent from the cache inserts the
newly prepared object BEFORE the consistency check fires: the handler
reports the error (`false`, the `OperatorError` of `on_update`) yet the
cache now holds the name; a second Modified event for the same name then
follows the normal update path, reconciling the first prepared state with
the second and storing the second. -/
theorem C10_update_unknown_inserts_then_updates {Obj St : Type}
    (name : Obj → String) (prep : Obj → St) (rec : Option St → Option St → Bool)
    (s : OperatorState St) (o o2 : Obj)
    (h0 : s.objects (name o) = none) (h2 : name o2 = name o) :
    (on_update name prep rec s o).1 = false ∧
      (on_update name prep rec s o).2.objects (name o) = some (prep o) ∧
      (on_update name prep rec (on_update name prep rec s o).2 o2).1
          = rec (some (prep o)) (some (prep o2)) ∧
      (on_update name prep rec (on_update name prep rec s o).2 o2).2.objects (name o)
          = some (prep o2) := by
  simp [on_update, h0, h2]

/-- C10 witness: with an identity operator over string objects and an
empty cache, the first Modified for `cfg` errors but caches it, and the
second Modified is handled as a normal update. -/
theorem C10_witness :
    ((OperatorState.mk (fun _ => (none : Option String))).objects
        ((fun o => o) "cfg") = none) ∧
      ((fun o : String => o) "cfg" = (fun o : String => o) "cfg") ∧
      ((on_update (fun o => o) (fun o => o) (fun _ _ => true)
          (OperatorState.mk (fun _ => none)) "cfg").1 = false ∧
        (on_update (fun o => o) (fun o => o) (fun _ _ => true)
          (OperatorState.mk (fun _ => none)) "cfg").2.objects ((fun o => o) "cfg")
            = some ((fun o => o) "cfg") ∧
        (on_update (fun o => o) (fun o => o) (fun _ _ => true)
          (on_update (fun o => o) (fun o => o) (fun _ _ => true)
            (OperatorState.mk (fun _ => none)) "cfg").2 "cfg").1
            = (fun _ _ => true) (some ((fun o => o) "cfg")) (some ((fun o => o) "cfg")) ∧
        (on_update (fun o => o) (fun o => o) (fun _ _ => true)
          (on_update (fun o => o) (fun o => o) (fun _ _ => true)
            (OperatorState.mk (fun _ => none)) "cfg").2 "cfg").2.objects ((fun o => o) "cfg")
            = some ((fun o => o) "cfg")) :=
  ⟨rfl, rfl,
    C10_update_unknown_inserts_then_updates (fun o => o) (fun o => o) (fun _ _ => true)
      (OperatorState.mk (fun _ => none)) "cfg" "cfg" rfl rfl⟩

end CmBump
